import Mathlib

/-
Shallow embedding of the easyjson buffer package: chunked growable
storage, a size-classed chunk reuse pool, and the recyclable
(reference-counted, clonable) reader.  Bytes are modelled as `Nat`,
Go byte slices as a `Chunk` (a data list plus its capacity), and the
process-wide reuse pool as an explicit `PoolState` threaded through
every operation.  The `calls` field of `PoolState` records every
`putBuf` invocation in order, so that chunk-release behaviour can be
stated exactly; the `pool` field holds the capacities that the pool
actually retains (putBuf drops chunks that are below the pooled size
or outside the size-class table).
-/

namespace EasyjsonBuffer

/-- Configuration for the allocation and reuse strategy (Go `PoolConfig`). -/
structure PoolConfig where
  startSize : Nat
  pooledSize : Nat
  maxSize : Nat
deriving DecidableEq

/-- The default configuration from the source (`config` package variable). -/
def defaultConfig : PoolConfig := ⟨128, 512, 32768⟩

/-- A Go byte slice: the bytes currently used plus the backing capacity. -/
structure Chunk where
  data : List Nat
  cap : Nat
deriving DecidableEq

/-- The nil slice: length 0, capacity 0. -/
def nilChunk : Chunk := ⟨[], 0⟩

/-- The size classes of the reuse pool: the keys of the Go `buffers` map,
built by `initBuffers` as `pooledSize, 2*pooledSize, ...` while `≤ maxSize`.
The fuel `maxSize.log2 + 2` bounds the number of doublings. -/
def sizeClassList (cfg : PoolConfig) : List Nat :=
  go (cfg.maxSize.log2 + 2) cfg.pooledSize
where
  go : Nat → Nat → List Nat
    | 0, _ => []
    | fuel + 1, l => if l ≤ cfg.maxSize then l :: go fuel (l * 2) else []

/-- State of the process-wide chunk pool.  `pool` holds the capacities of
chunks currently retained for reuse (pooled chunks are stored with length
reset to 0, so only the capacity matters); `calls` is the instrumentation
log of every `putBuf` call, in order. -/
structure PoolState where
  pool : List Nat
  calls : List Chunk
deriving DecidableEq

/-- The empty pool. -/
def PoolState.empty : PoolState := ⟨[], []⟩

/-- Go `putBuf`: releases a chunk to the reuse pool.  The pool retains it
only if its capacity is at least `pooledSize` and is one of the size
classes (`buffers[size] != nil`); otherwise the chunk is dropped.  Every
call is recorded in `calls`. -/
def putBuf (cfg : PoolConfig) (ps : PoolState) (c : Chunk) : PoolState :=
  { pool := if cfg.pooledSize ≤ c.cap ∧ c.cap ∈ sizeClassList cfg then
      ps.pool ++ [c.cap] else ps.pool,
    calls := ps.calls ++ [c] }

/-- Go `getBuf`: acquires a chunk of exactly the requested capacity, from
the pool when a pooled chunk of that capacity exists, freshly otherwise.
Either way the returned slice has length 0 and capacity `size` (pooled
chunks are stored as `buf[:0]` keyed by their exact capacity). -/
def getBuf (cfg : PoolConfig) (ps : PoolState) (size : Nat) : Chunk × PoolState :=
  (Chunk.mk [] size,
   if cfg.pooledSize ≤ size ∧ size ∈ sizeClassList cfg ∧ size ∈ ps.pool then
     { ps with pool := ps.pool.erase size }
   else ps)

/-- Go `Buffer`: the active chunk `buf` (field `Buf`), the capacity of the
slice recorded for pooling (`toPool`; that slice always has length 0, so
only its capacity is state), and the spilled chunks `bufs`. -/
structure Buffer where
  buf : Chunk
  toPoolCap : Nat
  bufs : List Chunk
deriving DecidableEq

/-- A fresh buffer: all slices nil. -/
def Buffer.empty : Buffer := ⟨nilChunk, 0, []⟩

/-- Go `Buffer.ensureSpaceSlow`: spills a non-empty active chunk, pools a
reallocated `toPool` slice, and acquires a new active chunk of capacity
`min(maxSize, 2*cap(toPool))`, or `startSize` when the active chunk is
empty.  The `s` parameter of the Go function is unused in its body. -/
def Buffer.ensureSpaceSlow (cfg : PoolConfig) (b : Buffer) (ps : PoolState) :
    Buffer × PoolState :=
  if 0 < b.buf.data.length then
    let ps1 := if b.toPoolCap ≠ b.buf.cap then putBuf cfg ps (Chunk.mk [] b.toPoolCap) else ps
    let bufs1 := b.bufs ++ [b.buf]
    let lreq := b.toPoolCap * 2
    let lcap := if cfg.maxSize < lreq then cfg.maxSize else lreq
    let g := getBuf cfg ps1 lcap
    (⟨g.1, lcap, bufs1⟩, g.2)
  else
    let lreq := cfg.startSize
    let lcap := if cfg.maxSize < lreq then cfg.maxSize else lreq
    let g := getBuf cfg ps lcap
    (⟨g.1, lcap, b.bufs⟩, g.2)

/-- Go `Buffer.EnsureSpace`: takes the slow path when the active chunk has
fewer than `s` free bytes. -/
def Buffer.ensureSpace (cfg : PoolConfig) (s : Nat) (b : Buffer) (ps : PoolState) :
    Buffer × PoolState :=
  if b.buf.cap - b.buf.data.length < s then Buffer.ensureSpaceSlow cfg b ps else (b, ps)

/-- Go `Buffer.AppendByte`. -/
def Buffer.appendByte (cfg : PoolConfig) (x : Nat) (b : Buffer) (ps : PoolState) :
    Buffer × PoolState :=
  let r := Buffer.ensureSpace cfg 1 b ps
  (⟨⟨r.1.buf.data ++ [x], r.1.buf.cap⟩, r.1.toPoolCap, r.1.bufs⟩, r.2)

/-- The loop of Go `Buffer.appendBytesSlow` (identical to
`appendStringSlow`): repeatedly ensure one free byte and copy as much of
`data` as fits.  Structured on explicit fuel; `data.length` steps always
suffice because each iteration copies at least one byte whenever the
active chunk has free space. -/
def Buffer.appendBytesLoop (cfg : PoolConfig) :
    Nat → List Nat → Buffer → PoolState → Buffer × PoolState
  | 0, _, b, ps => (b, ps)
  | fuel + 1, data, b, ps =>
    if data.isEmpty then (b, ps)
    else
      let r := Buffer.ensureSpace cfg 1 b ps
      let b1 := r.1
      let sz := min (b1.buf.cap - b1.buf.data.length) data.length
      Buffer.appendBytesLoop cfg fuel (data.drop sz)
        ⟨⟨b1.buf.data ++ data.take sz, b1.buf.cap⟩, b1.toPoolCap, b1.bufs⟩ r.2

/-- Go `Buffer.AppendBytes`: fast path when the data fits in the active
chunk's free space, otherwise the slow loop. -/
def Buffer.appendBytes (cfg : PoolConfig) (data : List Nat) (b : Buffer) (ps : PoolState) :
    Buffer × PoolState :=
  if data.length ≤ b.buf.cap - b.buf.data.length then
    (⟨⟨b.buf.data ++ data, b.buf.cap⟩, b.toPoolCap, b.bufs⟩, ps)
  else
    Buffer.appendBytesLoop cfg data.length data b ps

/-- Go `Buffer.AppendString`: textually identical to `AppendBytes` with a
string argument (strings are byte lists in this model). -/
def Buffer.appendString (cfg : PoolConfig) (data : List Nat) (b : Buffer) (ps : PoolState) :
    Buffer × PoolState :=
  if data.length ≤ b.buf.cap - b.buf.data.length then
    (⟨⟨b.buf.data ++ data, b.buf.cap⟩, b.toPoolCap, b.bufs⟩, ps)
  else
    Buffer.appendBytesLoop cfg data.length data b ps

/-- Sum of chunk lengths starting from `init` (the accumulation pattern
used by Go `Buffer.Size` and `recyclableReadCloser.Len`). -/
def chunksLen (l : List Chunk) (init : Nat) : Nat :=
  l.foldl (fun a c => a + c.data.length) init

/-- Go `Buffer.Size`: length of the active chunk plus the spilled chunks. -/
def Buffer.size (b : Buffer) : Nat :=
  chunksLen b.bufs b.buf.data.length

/-- Abstraction: all bytes held by the buffer, spilled chunks first, in
order, then the active chunk. -/
def Buffer.content (b : Buffer) : List Nat :=
  (b.bufs.map Chunk.data).flatten ++ b.buf.data

/-- Go `Buffer.BuildBytes` (without the optional reuse argument, which
only affects where the result is allocated, not its contents): returns
the active chunk directly when nothing was spilled, otherwise copies all
chunks into one contiguous slice, releasing every chunk to the pool, and
resets the buffer. -/
def Buffer.buildBytes (cfg : PoolConfig) (b : Buffer) (ps : PoolState) :
    List Nat × Buffer × PoolState :=
  if b.bufs.isEmpty then
    (b.buf.data, ⟨nilChunk, 0, b.bufs⟩, ps)
  else
    let ret := (b.bufs.map Chunk.data).flatten ++ b.buf.data
    let ps1 := b.bufs.foldl (putBuf cfg) ps
    let ps2 := putBuf cfg ps1 (Chunk.mk [] b.toPoolCap)
    (ret, Buffer.empty, ps2)

/-- One append operation of the producer interface. -/
inductive AppendOp where
  | abyte (x : Nat)
  | abytes (data : List Nat)
  | astr (data : List Nat)
deriving DecidableEq

/-- The bytes an append operation contributes. -/
def AppendOp.bytes : AppendOp → List Nat
  | .abyte x => [x]
  | .abytes d => d
  | .astr d => d

/-- Run one append operation. -/
def applyOp (cfg : PoolConfig) (s : Buffer × PoolState) : AppendOp → Buffer × PoolState
  | .abyte x => Buffer.appendByte cfg x s.1 s.2
  | .abytes d => Buffer.appendBytes cfg d s.1 s.2
  | .astr d => Buffer.appendString cfg d s.1 s.2

/-- Run a sequence of append operations. -/
def runOps (cfg : PoolConfig) (s : Buffer × PoolState) (ops : List AppendOp) :
    Buffer × PoolState :=
  ops.foldl (applyOp cfg) s

/-- One scripted response of an output sink: either accept the whole
write, or accept at most `accept` bytes and fail with error `code`.
This models the `io.Writer` contract, under which a short write must be
accompanied by a non-nil error. -/
inductive WResp where
  | ok
  | fail (accept : Nat) (code : Nat)
deriving DecidableEq

/-- An output sink (`io.Writer`): a response script consumed one entry
per `Write` call (an exhausted script accepts everything), plus the
bytes accepted so far. -/
structure Sink where
  script : List WResp
  written : List Nat
deriving DecidableEq

/-- One `Write` call on the sink: returns the number of bytes accepted
and the error code, if any. -/
def sinkWrite (w : Sink) (data : List Nat) : Nat × Option Nat × Sink :=
  match w.script with
  | [] => (data.length, none, ⟨[], w.written ++ data⟩)
  | .ok :: rest => (data.length, none, ⟨rest, w.written ++ data⟩)
  | .fail k code :: rest =>
    let x := min k data.length
    (x, some code, ⟨rest, w.written ++ data.take x⟩)

/-- Writing a list of chunks to the sink one `Write` call per chunk,
stopping at the first error: the loop shared by Go `Buffer.WriteTo`
(over `b.bufs`) and `net.Buffers.WriteTo` as used by `Buffer.DumpTo`. -/
def writeList (w : Sink) (n : Nat) : List Chunk → Nat × Option Nat × Sink
  | [] => (n, none, w)
  | c :: rest =>
    if (sinkWrite w c.data).2.1.isSome then
      (n + (sinkWrite w c.data).1, (sinkWrite w c.data).2.1, (sinkWrite w c.data).2.2)
    else writeList (sinkWrite w c.data).2.2 (n + (sinkWrite w c.data).1) rest

/-- Result of a buffer flush (`WriteTo` / `DumpTo`). -/
structure FlushResult where
  n : Nat
  err : Option Nat
  buf : Buffer
  pool : PoolState
  sink : Sink
deriving DecidableEq

/-- Go `Buffer.WriteTo`: writes each spilled chunk, returning immediately
on error (releasing nothing); then writes the active chunk, and releases
every chunk and resets the buffer regardless of that final write's error. -/
def Buffer.writeTo (cfg : PoolConfig) (b : Buffer) (ps : PoolState) (w : Sink) :
    FlushResult :=
  if (writeList w 0 b.bufs).2.1.isSome then
    ⟨(writeList w 0 b.bufs).1, (writeList w 0 b.bufs).2.1, b, ps, (writeList w 0 b.bufs).2.2⟩
  else
    ⟨(writeList w 0 b.bufs).1 + (sinkWrite (writeList w 0 b.bufs).2.2 b.buf.data).1,
     (sinkWrite (writeList w 0 b.bufs).2.2 b.buf.data).2.1,
     Buffer.empty,
     putBuf cfg (b.bufs.foldl (putBuf cfg) ps) (Chunk.mk [] b.toPoolCap),
     (sinkWrite (writeList w 0 b.bufs).2.2 b.buf.data).2.2⟩

/-- Go `Buffer.DumpTo`: gathers the spilled chunks plus a non-empty
active chunk, writes them via `net.Buffers.WriteTo` (stopping at the
first error), then releases every chunk and resets the buffer regardless
of the outcome. -/
def Buffer.dumpTo (cfg : PoolConfig) (b : Buffer) (ps : PoolState) (w : Sink) :
    FlushResult :=
  ⟨(writeList w 0 (b.bufs ++ (if 0 < b.buf.data.length then [b.buf] else []))).1,
   (writeList w 0 (b.bufs ++ (if 0 < b.buf.data.length then [b.buf] else []))).2.1,
   Buffer.empty,
   putBuf cfg (b.bufs.foldl (putBuf cfg) ps) (Chunk.mk [] b.toPoolCap),
   (writeList w 0 (b.bufs ++ (if 0 < b.buf.data.length then [b.buf] else []))).2.2⟩

/-- The shared chunk set (Go `recyclable`): an ordered chunk list plus
the reference count held in the atomic `isRecycle`. -/
structure Recyclable where
  data : List Chunk
  isRecycle : Int
deriving DecidableEq

/-- Go `newRecyclable`: a fresh shared set with reference count 1. -/
def newRecyclable (data : List Chunk) : Recyclable := ⟨data, 1⟩

/-- All bytes of a shared chunk set, in chunk order. -/
def recContent (rec : Recyclable) : List Nat :=
  (rec.data.map Chunk.data).flatten

/-- Go `recyclable.Recycle`, for a possibly nil receiver (`rnil` models a
nil `*recyclable` pointer, on which the method returns immediately):
decrements the reference count and, exactly when it reaches zero,
releases every chunk of the set to the pool and clears the set. -/
def recRecycle (cfg : PoolConfig) (rnil : Bool) (rec : Recyclable) (ps : PoolState) :
    Recyclable × PoolState :=
  if rnil then (rec, ps)
  else if rec.isRecycle - 1 = 0 then
    (⟨[], 0⟩, rec.data.foldl (putBuf cfg) ps)
  else
    (⟨rec.data, rec.isRecycle - 1⟩, ps)

/-- A cursor over the shared chunk set (Go `recyclableReadCloser`).
`hasBufs` records whether the cursor's `bufs` pointer is non-nil (all
cursors in a scenario share the single `Recyclable` value threaded
alongside). -/
structure Cursor where
  hasBufs : Bool
  offset : Nat
  index : Nat
  offsetLen : Nat
  size : Nat
  isClose : Bool
  isRecycle : Bool
deriving DecidableEq

/-- A freshly created cursor (Go `newRecyclableReadCloser` / `Clone`):
position 0, nothing cached, both flags false. -/
def freshCursor : Cursor := ⟨true, 0, 0, 0, 0, false, false⟩

/-- Distinct error conditions of the reader interface: end-of-stream
(`io.EOF`), the closed-reader condition (`closedErr`), and a propagated
sink error. -/
inductive RErr where
  | eof
  | closed
  | sink (code : Nat)
deriving DecidableEq

/-- The non-nil core of Go `recyclableReadCloser.Len`: returns the cached
size when it is positive, 0 when the `bufs` pointer is nil, and otherwise
the sum of the chunk lengths, cached into the cursor. -/
def lenCore (rec : Recyclable) (c : Cursor) : Nat × Cursor :=
  if 0 < c.size then (c.size, c)
  else if c.hasBufs then
    (chunksLen rec.data 0,
     ⟨c.hasBufs, c.offset, c.index, c.offsetLen, chunksLen rec.data 0, c.isClose, c.isRecycle⟩)
  else (0, c)

/-- Go `recyclableReadCloser.Len`: 0 for a nil receiver. -/
def rrcLen (rec : Recyclable) : Option Cursor → Nat × Option Cursor
  | none => (0, none)
  | some c => ((lenCore rec c).1, some (lenCore rec c).2)

/-- Go `recyclableReadCloser.Recycle`: a no-op for a nil receiver; the
first call per cursor sets its `isRecycle` flag, recycles the shared set
(a no-op when the cursor's `bufs` pointer is nil), and clears `bufs`;
later calls return immediately. -/
def rrcRecycle (cfg : PoolConfig) (rec : Recyclable) (ps : PoolState) :
    Option Cursor → Option Cursor × Recyclable × PoolState
  | none => (none, rec, ps)
  | some c =>
    if c.isRecycle then (some c, rec, ps)
    else
      let r := recRecycle cfg (!c.hasBufs) rec ps
      (some ⟨false, c.offset, c.index, c.offsetLen, c.size, c.isClose, true⟩, r.1, r.2)

/-- Go `recyclableReadCloser.Clone`: nil for a nil receiver; otherwise
bumps the shared set's reference count (when the `bufs` pointer is
non-nil) and returns a fresh cursor over the same set. -/
def rrcClone (rec : Recyclable) : Option Cursor → Option Cursor × Recyclable
  | none => (none, rec)
  | some c =>
    let rec1 := if c.hasBufs then Recyclable.mk rec.data (rec.isRecycle + 1) else rec
    (some ⟨c.hasBufs, 0, 0, 0, 0, false, false⟩, rec1)

/-- Go `recyclableReadCloser.Close`: always returns a nil error; marks a
non-nil cursor closed. -/
def rrcClose : Option Cursor → Option Cursor
  | none => none
  | some c => some ⟨c.hasBufs, c.offset, c.index, c.offsetLen, c.size, true, c.isRecycle⟩

/-- Go `recyclableReadCloser.Reset`: rewinds the position.  The source
assigns fields without a nil check, so a nil receiver panics; the panic
is modelled as the `none` result. -/
def rrcReset : Option Cursor → Option Cursor
  | none => none
  | some c => some ⟨c.hasBufs, 0, 0, 0, c.size, c.isClose, c.isRecycle⟩

/-- State of the copy loop inside Go `recyclableReadCloser.Read`:
bytes copied so far, the cursor's offset/index/offsetLen fields (mutated
in place by the loop), and the error set by a break. -/
structure RdSt where
  n : Nat
  off : Nat
  idx : Nat
  olen : Nat
  err : Option RErr
deriving DecidableEq

/-- The copy loop of Go `recyclableReadCloser.Read`: while chunks remain,
copy as much as fits into the remaining destination space, advancing
offset/index/offsetLen, breaking when the destination is full.  Each
step either advances `idx` or copies at least one byte, so fuel
`bufs.length + plen + 1` always suffices. -/
def readLoop (bufs : List Chunk) (plen : Nat) (cl : Bool) : Nat → RdSt → RdSt
  | 0, st => st
  | fuel + 1, st =>
    if st.idx < bufs.length then
      if cl then ⟨st.n, st.off, st.idx, st.olen, some .closed⟩
      else
        let buf := bufs.getD st.idx nilChunk
        let x := min (plen - st.n) (buf.data.length - st.off)
        let oi := if st.off + x = buf.data.length then (0, st.idx + 1) else (st.off + x, st.idx)
        let st1 : RdSt := ⟨st.n + x, oi.1, oi.2, st.olen + x, st.err⟩
        if st1.n = plen then st1 else readLoop bufs plen cl fuel st1
    else st

/-- Result of a cursor read. -/
structure ReadResult where
  n : Nat
  err : Option RErr
  cursor : Option Cursor
deriving DecidableEq

/-- Go `recyclableReadCloser.Read` with a destination of length `plen`:
a nil receiver reads as end-of-stream; an exhausted cursor returns
end-of-stream before the closed check; a closed cursor returns the
closed condition; a nil `bufs` pointer reads as end-of-stream; otherwise
the copy loop runs, and end-of-stream replaces the loop's error once the
consumed count reaches the total length (with `(0, no error)` reserved
for a zero-length destination in that branch). -/
def rrcRead (rec : Recyclable) (r : Option Cursor) (plen : Nat) : ReadResult :=
  match r with
  | none => ⟨0, some .eof, none⟩
  | some c =>
    if (lenCore rec c).1 ≤ (lenCore rec c).2.offsetLen then ⟨0, some .eof, some (lenCore rec c).2⟩
    else if (lenCore rec c).2.isClose then ⟨0, some .closed, some (lenCore rec c).2⟩
    else if (lenCore rec c).2.hasBufs then
      let st := readLoop rec.data plen (lenCore rec c).2.isClose (rec.data.length + plen + 1)
        ⟨0, (lenCore rec c).2.offset, (lenCore rec c).2.index, (lenCore rec c).2.offsetLen, none⟩
      let c1 : Cursor := ⟨(lenCore rec c).2.hasBufs, st.off, st.idx, st.olen,
        (lenCore rec c).2.size, (lenCore rec c).2.isClose, (lenCore rec c).2.isRecycle⟩
      if (lenCore rec c).1 ≤ st.olen then
        if plen = 0 then ⟨0, none, some c1⟩
        else ⟨st.n, some .eof, some c1⟩
      else ⟨st.n, st.err, some c1⟩
    else ⟨0, some .eof, some (lenCore rec c).2⟩

/-- State of the write loop inside Go `recyclableReadCloser.WriteTo`. -/
structure WtSt where
  n : Nat
  off : Nat
  idx : Nat
  olen : Nat
  err : Option RErr
  w : Sink
deriving DecidableEq

/-- The write loop of Go `recyclableReadCloser.WriteTo`: writes the
remainder of each chunk to the sink, advancing the cursor fields, and
returns on the first sink error. -/
def wtLoop (bufs : List Chunk) (cl : Bool) : Nat → WtSt → WtSt
  | 0, st => st
  | fuel + 1, st =>
    if st.idx < bufs.length then
      if cl then ⟨st.n, st.off, st.idx, st.olen, some .closed, st.w⟩
      else
        let buf := bufs.getD st.idx nilChunk
        let r := sinkWrite st.w (buf.data.drop st.off)
        let x := r.1
        let oi := if st.off + x = buf.data.length then (0, st.idx + 1) else (st.off + x, st.idx)
        let st1 : WtSt := ⟨st.n + x, oi.1, oi.2, st.olen + x, r.2.1.map RErr.sink, r.2.2⟩
        match r.2.1 with
        | some _ => st1
        | none => wtLoop bufs cl fuel st1
    else st

/-- Result of a cursor `WriteTo`. -/
structure WtResult where
  n : Nat
  err : Option RErr
  cursor : Option Cursor
  sink : Sink
deriving DecidableEq

/-- Go `recyclableReadCloser.WriteTo`: a nil receiver and an exhausted
cursor both return `(0, no error)` before the closed check; a closed
cursor returns the closed condition; a nil `bufs` pointer returns
`(0, no error)`; otherwise the write loop runs. -/
def rrcWriteTo (rec : Recyclable) (r : Option Cursor) (w : Sink) : WtResult :=
  match r with
  | none => ⟨0, none, none, w⟩
  | some c =>
    if (lenCore rec c).1 ≤ (lenCore rec c).2.offsetLen then ⟨0, none, some (lenCore rec c).2, w⟩
    else if (lenCore rec c).2.isClose then ⟨0, some .closed, some (lenCore rec c).2, w⟩
    else if (lenCore rec c).2.hasBufs then
      let st := wtLoop rec.data (lenCore rec c).2.isClose (rec.data.length + 1)
        ⟨0, (lenCore rec c).2.offset, (lenCore rec c).2.index, (lenCore rec c).2.offsetLen, none, w⟩
      let c1 : Cursor := ⟨(lenCore rec c).2.hasBufs, st.off, st.idx, st.olen,
        (lenCore rec c).2.size, (lenCore rec c).2.isClose, (lenCore rec c).2.isRecycle⟩
      ⟨st.n, st.err, some c1, st.w⟩
    else ⟨0, none, some (lenCore rec c).2, w⟩

/-- Result of a cursor `Bytes` call: `none` output models a panic. -/
structure BytesResult where
  out : Option (List Nat)
  cursor : Option Cursor
deriving DecidableEq

/-- Go `recyclableReadCloser.Bytes`: nil for a nil receiver or a zero
total length; otherwise concatenates every chunk of the shared set from
the beginning (the cursor position plays no part).  When the cached
length is positive but the `bufs` pointer is nil the source dereferences
nil and panics, modelled as `out = none`. -/
def rrcBytes (rec : Recyclable) (r : Option Cursor) : BytesResult :=
  match r with
  | none => ⟨some [], none⟩
  | some c =>
    if (lenCore rec c).1 = 0 then ⟨some [], some (lenCore rec c).2⟩
    else if c.hasBufs then ⟨some (recContent rec), some (lenCore rec c).2⟩
    else ⟨none, some (lenCore rec c).2⟩

/-- Recycle `k` freshly cloned cursors of the shared set, one after the
other (each clone starts with both flags false and a live `bufs`
pointer). -/
def recycleFreshK (cfg : PoolConfig) : Nat → Recyclable × PoolState → Recyclable × PoolState
  | 0, s => s
  | k + 1, s =>
    recycleFreshK cfg k ((rrcRecycle cfg s.1 s.2 (some freshCursor)).2.1,
      (rrcRecycle cfg s.1 s.2 (some freshCursor)).2.2)

/-- Go `Buffer.RecyclableReader`: wraps the buffer's chunks (spilled
chunks then the active chunk) in a fresh shared set with reference count
1 and returns a fresh cursor; the buffer is reset. -/
def Buffer.recyclableReader (b : Buffer) : Cursor × Recyclable × Buffer :=
  (freshCursor, newRecyclable (b.bufs ++ [b.buf]), Buffer.empty)

/-- Invariant of every buffer state reachable through the append API:
the active chunk is within capacity, and the recorded `toPool` capacity
is the active chunk's capacity (the two slices come from the same
`getBuf` call and the active chunk is never reallocated by the package's
own appends). -/
def BufferInv (b : Buffer) : Prop :=
  b.buf.data.length ≤ b.buf.cap ∧ b.toPoolCap = b.buf.cap

instance (b : Buffer) : Decidable (BufferInv b) := by
  unfold BufferInv; infer_instance

/-- Concrete append sequence used to witness C2: total length 21 exceeds
the witness configuration's `maxSize` of 16. -/
def opsC2 : List AppendOp :=
  [.abytes [1, 2, 3, 4, 5, 6, 7, 8, 9, 10, 11, 12, 13, 14, 15, 16, 17, 18],
   .abyte 19, .astr [20, 21]]

/-! Helper lemmas shared by the claim theorems. -/

theorem putBuf_calls (cfg : PoolConfig) (ps : PoolState) (c : Chunk) :
    (putBuf cfg ps c).calls = ps.calls ++ [c] := rfl

theorem foldl_putBuf_calls (cfg : PoolConfig) :
    ∀ (l : List Chunk) (ps : PoolState), (l.foldl (putBuf cfg) ps).calls = ps.calls ++ l := by
  intro l
  induction l with
  | nil => intro ps; simp
  | cons c t ih =>
    intro ps
    simp [List.foldl_cons, ih, putBuf_calls]

theorem chunksLen_eq (l : List Chunk) :
    ∀ init : Nat, chunksLen l init = init + ((l.map Chunk.data).flatten).length := by
  induction l with
  | nil => intro init; simp [chunksLen]
  | cons c t ih =>
    intro init
    simp only [chunksLen, List.foldl_cons] at *
    rw [ih]
    simp
    omega

theorem size_eq_content_length (b : Buffer) : b.size = b.content.length := by
  unfold Buffer.size Buffer.content
  rw [chunksLen_eq]
  simp
  omega

theorem ite_lt_min (a c : Nat) : (if a < c then a else c) = min a c := by
  split <;> omega

theorem ensureSpaceSlow_eq (cfg : PoolConfig) (b : Buffer) (ps : PoolState) :
    (Buffer.ensureSpaceSlow cfg b ps).1
      = if 0 < b.buf.data.length then
          ⟨⟨[], min cfg.maxSize (b.toPoolCap * 2)⟩, min cfg.maxSize (b.toPoolCap * 2),
            b.bufs ++ [b.buf]⟩
        else
          ⟨⟨[], min cfg.maxSize cfg.startSize⟩, min cfg.maxSize cfg.startSize, b.bufs⟩ := by
  unfold Buffer.ensureSpaceSlow
  by_cases h : 0 < b.buf.data.length
  · simp only [if_pos h, getBuf, ite_lt_min]
  · simp only [if_neg h, getBuf, ite_lt_min]

theorem ensureSpace_eq (cfg : PoolConfig) (s : Nat) (b : Buffer) (ps : PoolState) :
    (Buffer.ensureSpace cfg s b ps).1
      = if b.buf.cap - b.buf.data.length < s then (Buffer.ensureSpaceSlow cfg b ps).1
        else b := by
  unfold Buffer.ensureSpace
  split <;> rfl

theorem ensureSpace_content (cfg : PoolConfig) (s : Nat) (b : Buffer) (ps : PoolState) :
    (Buffer.ensureSpace cfg s b ps).1.content = b.content := by
  rw [ensureSpace_eq, ensureSpaceSlow_eq]
  by_cases h1 : b.buf.cap - b.buf.data.length < s
  · rw [if_pos h1]
    by_cases h2 : 0 < b.buf.data.length
    · rw [if_pos h2]
      simp [Buffer.content]
    · rw [if_neg h2]
      have hd : b.buf.data = [] := by
        have : b.buf.data.length = 0 := by omega
        simpa using this
      simp [Buffer.content, hd]
  · rw [if_neg h1]

theorem ensureSpace_inv (cfg : PoolConfig) (s : Nat) (b : Buffer) (ps : PoolState)
    (hb : BufferInv b) : BufferInv (Buffer.ensureSpace cfg s b ps).1 := by
  rw [ensureSpace_eq, ensureSpaceSlow_eq]
  by_cases h1 : b.buf.cap - b.buf.data.length < s
  · rw [if_pos h1]
    by_cases h2 : 0 < b.buf.data.length
    · rw [if_pos h2]; exact ⟨by simp, rfl⟩
    · rw [if_neg h2]; exact ⟨by simp, rfl⟩
  · rw [if_neg h1]; exact hb

theorem ensureSpace_one_free (cfg : PoolConfig) (b : Buffer) (ps : PoolState)
    (hb : BufferInv b) (h1 : 1 ≤ cfg.startSize) (h2 : 1 ≤ cfg.maxSize) :
    1 ≤ (Buffer.ensureSpace cfg 1 b ps).1.buf.cap
      - (Buffer.ensureSpace cfg 1 b ps).1.buf.data.length := by
  obtain ⟨hlen, htp⟩ := hb
  rw [ensureSpace_eq, ensureSpaceSlow_eq]
  by_cases hc : b.buf.cap - b.buf.data.length < 1
  · rw [if_pos hc]
    by_cases h2p : 0 < b.buf.data.length
    · rw [if_pos h2p]
      show 1 ≤ min cfg.maxSize (b.toPoolCap * 2) - 0
      omega
    · rw [if_neg h2p]
      show 1 ≤ min cfg.maxSize cfg.startSize - 0
      omega
  · rw [if_neg hc]
    omega

theorem content_append_chunk (b1 : Buffer) (d : List Nat) :
    Buffer.content ⟨⟨b1.buf.data ++ d, b1.buf.cap⟩, b1.toPoolCap, b1.bufs⟩
      = b1.content ++ d := by
  simp only [Buffer.content]
  rw [← List.append_assoc]

theorem appendByte_spec (cfg : PoolConfig) (x : Nat) (b : Buffer) (ps : PoolState)
    (hb : BufferInv b) (h1 : 1 ≤ cfg.startSize) (h2 : 1 ≤ cfg.maxSize) :
    (Buffer.appendByte cfg x b ps).1.content = b.content ++ [x]
    ∧ BufferInv (Buffer.appendByte cfg x b ps).1 := by
  have hfree := ensureSpace_one_free cfg b ps hb h1 h2
  obtain ⟨hl, ht⟩ := ensureSpace_inv cfg 1 b ps hb
  have hcon := ensureSpace_content cfg 1 b ps
  refine ⟨?_, ?_, ?_⟩
  · show Buffer.content ⟨⟨(Buffer.ensureSpace cfg 1 b ps).1.buf.data ++ [x], _⟩, _, _⟩ = _
    rw [content_append_chunk, hcon]
  · show ((Buffer.ensureSpace cfg 1 b ps).1.buf.data ++ [x]).length
        ≤ (Buffer.ensureSpace cfg 1 b ps).1.buf.cap
    rw [List.length_append]
    simp only [List.length_cons, List.length_nil]
    omega
  · exact ht

theorem appendBytesLoop_spec (cfg : PoolConfig) (h1 : 1 ≤ cfg.startSize)
    (h2 : 1 ≤ cfg.maxSize) :
    ∀ (fuel : Nat) (data : List Nat) (b : Buffer) (ps : PoolState), BufferInv b →
      data.length ≤ fuel →
      (Buffer.appendBytesLoop cfg fuel data b ps).1.content = b.content ++ data
      ∧ BufferInv (Buffer.appendBytesLoop cfg fuel data b ps).1 := by
  intro fuel
  induction fuel with
  | zero =>
    intro data b ps hb hf
    have hd : data = [] := List.eq_nil_of_length_eq_zero (by omega)
    subst hd
    simp [Buffer.appendBytesLoop, hb]
  | succ fuel ih =>
    intro data b ps hb hf
    by_cases hd : data.isEmpty
    · have hdn : data = [] := List.isEmpty_iff.mp hd
      subst hdn
      simp [Buffer.appendBytesLoop, hb]
    · have hdn : data ≠ [] := fun h => hd (by simp [h])
      have hdl : 1 ≤ data.length := by
        cases data with
        | nil => exact absurd rfl hdn
        | cons a t => simp
      have hfree := ensureSpace_one_free cfg b ps hb h1 h2
      obtain ⟨hl, ht⟩ := ensureSpace_inv cfg 1 b ps hb
      have hcon := ensureSpace_content cfg 1 b ps
      rw [show Buffer.appendBytesLoop cfg (fuel + 1) data b ps
          = Buffer.appendBytesLoop cfg fuel
              (data.drop (min ((Buffer.ensureSpace cfg 1 b ps).1.buf.cap
                - (Buffer.ensureSpace cfg 1 b ps).1.buf.data.length) data.length))
              ⟨⟨(Buffer.ensureSpace cfg 1 b ps).1.buf.data
                  ++ data.take (min ((Buffer.ensureSpace cfg 1 b ps).1.buf.cap
                    - (Buffer.ensureSpace cfg 1 b ps).1.buf.data.length) data.length),
                (Buffer.ensureSpace cfg 1 b ps).1.buf.cap⟩,
               (Buffer.ensureSpace cfg 1 b ps).1.toPoolCap,
               (Buffer.ensureSpace cfg 1 b ps).1.bufs⟩
              (Buffer.ensureSpace cfg 1 b ps).2 from by
        simp only [Buffer.appendBytesLoop]
        rw [if_neg (by simpa using hdn)]]
      set r1 := Buffer.ensureSpace cfg 1 b ps with hr1
      set sz := min (r1.1.buf.cap - r1.1.buf.data.length) data.length with hsz
      have hsz1 : 1 ≤ sz := by
        rw [hsz]
        omega
      have hszle : sz ≤ r1.1.buf.cap - r1.1.buf.data.length := by
        rw [hsz]
        omega
      have hinv2 : BufferInv ⟨⟨r1.1.buf.data ++ data.take sz, r1.1.buf.cap⟩,
          r1.1.toPoolCap, r1.1.bufs⟩ := by
        refine ⟨?_, ht⟩
        show (r1.1.buf.data ++ data.take sz).length ≤ r1.1.buf.cap
        rw [List.length_append]
        have : (data.take sz).length ≤ sz := by simp
        omega
      have hdrop : (data.drop sz).length ≤ fuel := by
        rw [List.length_drop]
        omega
      obtain ⟨ihc, ihi⟩ := ih (data.drop sz)
        ⟨⟨r1.1.buf.data ++ data.take sz, r1.1.buf.cap⟩, r1.1.toPoolCap, r1.1.bufs⟩
        r1.2 hinv2 hdrop
      refine ⟨?_, ihi⟩
      rw [ihc, content_append_chunk, hcon, List.append_assoc, List.take_append_drop]

theorem appendBytes_spec (cfg : PoolConfig) (data : List Nat) (b : Buffer) (ps : PoolState)
    (hb : BufferInv b) (h1 : 1 ≤ cfg.startSize) (h2 : 1 ≤ cfg.maxSize) :
    (Buffer.appendBytes cfg data b ps).1.content = b.content ++ data
    ∧ BufferInv (Buffer.appendBytes cfg data b ps).1 := by
  unfold Buffer.appendBytes
  split
  · refine ⟨content_append_chunk b data, ?_, hb.2⟩
    show (b.buf.data ++ data).length ≤ b.buf.cap
    rw [List.length_append]
    have := hb.1
    omega
  · exact appendBytesLoop_spec cfg h1 h2 data.length data b ps hb le_rfl

theorem appendString_spec (cfg : PoolConfig) (data : List Nat) (b : Buffer) (ps : PoolState)
    (hb : BufferInv b) (h1 : 1 ≤ cfg.startSize) (h2 : 1 ≤ cfg.maxSize) :
    (Buffer.appendString cfg data b ps).1.content = b.content ++ data
    ∧ BufferInv (Buffer.appendString cfg data b ps).1 := by
  unfold Buffer.appendString
  split
  · refine ⟨content_append_chunk b data, ?_, hb.2⟩
    show (b.buf.data ++ data).length ≤ b.buf.cap
    rw [List.length_append]
    have := hb.1
    omega
  · exact appendBytesLoop_spec cfg h1 h2 data.length data b ps hb le_rfl

theorem runOps_spec (cfg : PoolConfig) (h1 : 1 ≤ cfg.startSize) (h2 : 1 ≤ cfg.maxSize) :
    ∀ (ops : List AppendOp) (b : Buffer) (ps : PoolState), BufferInv b →
      (runOps cfg (b, ps) ops).1.content = b.content ++ (ops.map AppendOp.bytes).flatten
      ∧ BufferInv (runOps cfg (b, ps) ops).1 := by
  intro ops
  induction ops with
  | nil => intro b ps hb; simpa [runOps] using hb
  | cons op t ih =>
    intro b ps hb
    have hstep :
        (applyOp cfg (b, ps) op).1.content = b.content ++ op.bytes
        ∧ BufferInv (applyOp cfg (b, ps) op).1 := by
      cases op with
      | abyte x => exact appendByte_spec cfg x b ps hb h1 h2
      | abytes d => exact appendBytes_spec cfg d b ps hb h1 h2
      | astr d => exact appendString_spec cfg d b ps hb h1 h2
    have hrw : runOps cfg (b, ps) (op :: t)
        = runOps cfg ((applyOp cfg (b, ps) op).1, (applyOp cfg (b, ps) op).2) t := by
      simp [runOps, List.foldl_cons]
    rw [hrw]
    obtain ⟨ihc, ihi⟩ := ih (applyOp cfg (b, ps) op).1 (applyOp cfg (b, ps) op).2 hstep.2
    refine ⟨?_, ihi⟩
    rw [ihc, hstep.1, List.map_cons, List.flatten_cons, List.append_assoc]

theorem buildBytes_fst (cfg : PoolConfig) (b : Buffer) (ps : PoolState) :
    (Buffer.buildBytes cfg b ps).1 = b.content := by
  unfold Buffer.buildBytes
  split
  · next h =>
    have : b.bufs = [] := List.isEmpty_iff.mp h
    simp [Buffer.content, this]
  · rfl

/-- C2: for every finite sequence of byte strings appended (via
`AppendByte`, `AppendBytes`, `AppendString`) to a fresh buffer —
including sequences whose total length exceeds `maxSize` (nothing below
bounds the total) — `BuildBytes` returns exactly the concatenation of
the appended strings in append order, and `Size` called before
finalization equals the length of that concatenation.  The hypotheses
only require a sane configuration (positive start and maximum sizes). -/
theorem claim_C2 (cfg : PoolConfig) (ops : List AppendOp) (ps : PoolState)
    (h1 : 1 ≤ cfg.startSize) (h2 : 1 ≤ cfg.maxSize) :
    (runOps cfg (Buffer.empty, ps) ops).1.size = ((ops.map AppendOp.bytes).flatten).length
    ∧ (Buffer.buildBytes cfg (runOps cfg (Buffer.empty, ps) ops).1
        (runOps cfg (Buffer.empty, ps) ops).2).1 = (ops.map AppendOp.bytes).flatten := by
  have hinv : BufferInv Buffer.empty := by decide
  obtain ⟨hc, _⟩ := runOps_spec cfg h1 h2 ops Buffer.empty ps hinv
  have hce : Buffer.content Buffer.empty = [] := rfl
  rw [hce] at hc
  simp only [List.nil_append] at hc
  refine ⟨?_, ?_⟩
  · rw [size_eq_content_length, hc]
  · rw [buildBytes_fst, hc]

/-- Witness for C2 at the configuration `{start 4, pooled 8, max 16}` and
an append sequence totalling 21 bytes (more than `maxSize`). -/
theorem claim_C2_witness :
    1 ≤ (PoolConfig.mk 4 8 16).startSize ∧ 1 ≤ (PoolConfig.mk 4 8 16).maxSize
    ∧ ((runOps ⟨4, 8, 16⟩ (Buffer.empty, PoolState.empty) opsC2).1.size
          = ((opsC2.map AppendOp.bytes).flatten).length
       ∧ (Buffer.buildBytes ⟨4, 8, 16⟩ (runOps ⟨4, 8, 16⟩ (Buffer.empty, PoolState.empty) opsC2).1
            (runOps ⟨4, 8, 16⟩ (Buffer.empty, PoolState.empty) opsC2).2).1
          = (opsC2.map AppendOp.bytes).flatten) :=
  ⟨by decide, by decide, claim_C2 ⟨4, 8, 16⟩ opsC2 PoolState.empty (by decide) (by decide)⟩

/-- C4 as stated is false: `EnsureSpace n` does not guarantee `n` free
bytes in the active chunk.  On a fresh default-configured buffer,
`EnsureSpace 129` acquires the first chunk at `startSize = 128` and
leaves only 128 free bytes. -/
theorem claim_C4_counterexample :
    ¬ (129 ≤ (Buffer.ensureSpace defaultConfig 129 Buffer.empty PoolState.empty).1.buf.cap
        - (Buffer.ensureSpace defaultConfig 129 Buffer.empty PoolState.empty).1.buf.data.length) := by
  decide

/-- C4 amended: after `EnsureSpace n` the active chunk has at least
`min n startSize` free bytes (the shortfall happens only when `n`
exceeds the capacity the growth policy acquires), and when the slow path
spills, the non-empty previous active chunk is appended to the spilled
list, the spilled list being unchanged otherwise.  The invariant
hypotheses characterize buffer states reachable through the append API
under a configuration with `1 ≤ startSize ≤ maxSize`. -/
theorem claim_C4_amended (cfg : PoolConfig) (b : Buffer) (ps : PoolState) (n : Nat)
    (hb : BufferInv b) (hcap : b.buf.cap = 0 ∨ cfg.startSize ≤ b.buf.cap)
    (h1 : 1 ≤ cfg.startSize) (hsm : cfg.startSize ≤ cfg.maxSize) :
    min n cfg.startSize ≤ (Buffer.ensureSpace cfg n b ps).1.buf.cap
      - (Buffer.ensureSpace cfg n b ps).1.buf.data.length
    ∧ ((Buffer.ensureSpace cfg n b ps).1.bufs = b.bufs
       ∨ (b.buf.data ≠ [] ∧ (Buffer.ensureSpace cfg n b ps).1.bufs = b.bufs ++ [b.buf])) := by
  obtain ⟨hl, ht⟩ := hb
  rw [ensureSpace_eq, ensureSpaceSlow_eq]
  by_cases h0 : b.buf.cap - b.buf.data.length < n
  · rw [if_pos h0]
    by_cases hp : 0 < b.buf.data.length
    · rw [if_pos hp]
      constructor
      · show min n cfg.startSize ≤ min cfg.maxSize (b.toPoolCap * 2) - 0
        omega
      · refine Or.inr ⟨fun h => by simp [h] at hp, rfl⟩
    · rw [if_neg hp]
      constructor
      · show min n cfg.startSize ≤ min cfg.maxSize cfg.startSize - 0
        omega
      · exact Or.inl rfl
  · rw [if_neg h0]
    exact ⟨by omega, Or.inl rfl⟩

/-- Witness for C4 amended: a fresh default buffer and a request of 129
bytes (the counterexample input), where the guarantee degrades to
`min 129 128 = 128` free bytes. -/
theorem claim_C4_amended_witness :
    BufferInv Buffer.empty ∧ (Buffer.empty.buf.cap = 0 ∨ defaultConfig.startSize ≤ Buffer.empty.buf.cap)
    ∧ 1 ≤ defaultConfig.startSize ∧ defaultConfig.startSize ≤ defaultConfig.maxSize
    ∧ (min 129 defaultConfig.startSize
        ≤ (Buffer.ensureSpace defaultConfig 129 Buffer.empty PoolState.empty).1.buf.cap
          - (Buffer.ensureSpace defaultConfig 129 Buffer.empty PoolState.empty).1.buf.data.length
      ∧ ((Buffer.ensureSpace defaultConfig 129 Buffer.empty PoolState.empty).1.bufs = Buffer.empty.bufs
         ∨ (Buffer.empty.buf.data ≠ []
            ∧ (Buffer.ensureSpace defaultConfig 129 Buffer.empty PoolState.empty).1.bufs
                = Buffer.empty.bufs ++ [Buffer.empty.buf]))) :=
  ⟨by decide, by decide, by decide, by decide,
   claim_C4_amended defaultConfig Buffer.empty PoolState.empty 129
     (by decide) (by decide) (by decide) (by decide)⟩

/-- C5 as stated is false: the `startSize` branch of the growth policy
is selected whenever the active chunk is *empty*, not only for the very
first chunk.  Starting from a fresh default buffer, `EnsureSpace 200`
acquires a first chunk of capacity 128; a second `EnsureSpace 200` finds
the (still empty) active chunk too small and acquires another chunk —
not the first one of the buffer — again at capacity 128, instead of the
`min(maxSize, 2 × 128) = 256` the claim dictates. -/
theorem claim_C5_counterexample :
    (Buffer.ensureSpace defaultConfig 200 Buffer.empty PoolState.empty).1.buf.cap = 128
    ∧ (Buffer.ensureSpace defaultConfig 200
        (Buffer.ensureSpace defaultConfig 200 Buffer.empty PoolState.empty).1
        (Buffer.ensureSpace defaultConfig 200 Buffer.empty PoolState.empty).2).1.buf.cap
      ≠ min defaultConfig.maxSize
          (2 * (Buffer.ensureSpace defaultConfig 200 Buffer.empty PoolState.empty).1.buf.cap) := by
  decide

/-- C5 amended: when `EnsureSpace n` takes the slow path (the active
chunk has fewer than `n` free bytes), the capacity requested for the new
active chunk is `startSize` whenever the active chunk is empty —
including but not only for the very first chunk — and
`min(maxSize, 2 × active capacity)` when it is non-empty (the doubling
reads `cap(toPool)`, which equals the active chunk's capacity in every
state reachable through the append API). -/
theorem claim_C5_amended (cfg : PoolConfig) (b : Buffer) (ps : PoolState) (n : Nat)
    (ht : b.toPoolCap = b.buf.cap) (hsm : cfg.startSize ≤ cfg.maxSize)
    (hslow : b.buf.cap - b.buf.data.length < n) :
    (b.buf.data.length = 0 → (Buffer.ensureSpace cfg n b ps).1.buf.cap = cfg.startSize)
    ∧ (0 < b.buf.data.length →
        (Buffer.ensureSpace cfg n b ps).1.buf.cap = min cfg.maxSize (2 * b.buf.cap)) := by
  rw [ensureSpace_eq, ensureSpaceSlow_eq, if_pos hslow]
  constructor
  · intro h0
    rw [if_neg (by omega)]
    show min cfg.maxSize cfg.startSize = cfg.startSize
    omega
  · intro hp
    rw [if_pos hp]
    show min cfg.maxSize (b.toPoolCap * 2) = min cfg.maxSize (2 * b.buf.cap)
    omega

/-- Witness for C5 amended at the counterexample's second acquisition:
the active chunk (capacity 128) is empty, so the requested capacity is
`startSize = 128`. -/
theorem claim_C5_amended_witness :
    (Buffer.ensureSpace defaultConfig 200 Buffer.empty PoolState.empty).1.toPoolCap
        = (Buffer.ensureSpace defaultConfig 200 Buffer.empty PoolState.empty).1.buf.cap
    ∧ defaultConfig.startSize ≤ defaultConfig.maxSize
    ∧ (Buffer.ensureSpace defaultConfig 200 Buffer.empty PoolState.empty).1.buf.cap
        - (Buffer.ensureSpace defaultConfig 200 Buffer.empty PoolState.empty).1.buf.data.length
        < 200
    ∧ ((Buffer.ensureSpace defaultConfig 200 Buffer.empty PoolState.empty).1.buf.data.length = 0 →
        (Buffer.ensureSpace defaultConfig 200
          (Buffer.ensureSpace defaultConfig 200 Buffer.empty PoolState.empty).1
          (Buffer.ensureSpace defaultConfig 200 Buffer.empty PoolState.empty).2).1.buf.cap
          = defaultConfig.startSize) :=
  ⟨by decide, by decide, by decide,
   (claim_C5_amended defaultConfig
     (Buffer.ensureSpace defaultConfig 200 Buffer.empty PoolState.empty).1
     (Buffer.ensureSpace defaultConfig 200 Buffer.empty PoolState.empty).2 200
     (by decide) (by decide) (by decide)).1⟩

theorem sinkWrite_spec (w : Sink) (data : List Nat) :
    (sinkWrite w data).1 ≤ data.length
    ∧ (sinkWrite w data).2.2.written = w.written ++ data.take (sinkWrite w data).1
    ∧ ((sinkWrite w data).2.1 = none → (sinkWrite w data).1 = data.length) := by
  rcases w with ⟨script, written⟩
  cases script with
  | nil => simp [sinkWrite]
  | cons hd rest =>
    cases hd with
    | ok => simp [sinkWrite]
    | fail k code =>
      refine ⟨?_, ?_, ?_⟩ <;> simp [sinkWrite]

theorem writeList_spec :
    ∀ (cs : List Chunk) (w : Sink) (n0 : Nat),
      n0 ≤ (writeList w n0 cs).1
      ∧ (writeList w n0 cs).1 - n0 ≤ ((cs.map Chunk.data).flatten).length
      ∧ (writeList w n0 cs).2.2.written
          = w.written ++ ((cs.map Chunk.data).flatten).take ((writeList w n0 cs).1 - n0)
      ∧ ((writeList w n0 cs).2.1 = none →
          (writeList w n0 cs).1 - n0 = ((cs.map Chunk.data).flatten).length) := by
  intro cs
  induction cs with
  | nil => intro w n0; simp [writeList]
  | cons c rest ih =>
    intro w n0
    obtain ⟨hx, hw, he⟩ := sinkWrite_spec w c.data
    rcases hE : (sinkWrite w c.data).2.1 with _ | code
    · have hxlen : (sinkWrite w c.data).1 = c.data.length := he hE
      have hRW : writeList w n0 (c :: rest)
          = writeList (sinkWrite w c.data).2.2 (n0 + (sinkWrite w c.data).1) rest := by
        conv_lhs => unfold writeList
        rw [if_neg (by simp [hE])]
      rw [hRW]
      obtain ⟨ih1, ih2, ih3, ih4⟩ := ih (sinkWrite w c.data).2.2 (n0 + (sinkWrite w c.data).1)
      refine ⟨by omega, ?_, ?_, ?_⟩
      · simp only [List.map_cons, List.flatten_cons, List.length_append]
        omega
      · rw [ih3, hw, hxlen]
        simp only [List.take_length, List.map_cons, List.flatten_cons]
        have harith : (writeList (sinkWrite w c.data).2.2 (n0 + c.data.length) rest).1 - n0
            = c.data.length
              + ((writeList (sinkWrite w c.data).2.2 (n0 + c.data.length) rest).1
                - (n0 + c.data.length)) := by
          rw [hxlen] at ih1
          omega
        rw [harith, List.take_append, List.append_assoc]
      · intro hnone
        have := ih4 hnone
        simp only [List.map_cons, List.flatten_cons, List.length_append]
        rw [hxlen] at ih1 this ⊢
        omega
    · have hRW : writeList w n0 (c :: rest)
          = (n0 + (sinkWrite w c.data).1, (sinkWrite w c.data).2.1,
             (sinkWrite w c.data).2.2) := by
        conv_lhs => unfold writeList
        rw [if_pos (by simp [hE])]
      rw [hRW]
      refine ⟨by omega, ?_, ?_, ?_⟩
      · simp only [List.map_cons, List.flatten_cons, List.length_append]
        omega
      · show (sinkWrite w c.data).2.2.written
            = w.written ++ ((List.map Chunk.data (c :: rest)).flatten).take
                (n0 + (sinkWrite w c.data).1 - n0)
        have harith : n0 + (sinkWrite w c.data).1 - n0 = (sinkWrite w c.data).1 := by omega
        rw [harith, hw]
        simp only [List.map_cons, List.flatten_cons]
        rw [List.take_append_of_le_length hx]
      · intro hcontra
        rw [hE] at hcontra
        exact absurd hcontra (by simp)

/-- C6 as stated is false for `Buffer.WriteTo`: on a write error during
the spilled-chunk loop, `WriteTo` returns immediately and releases
nothing, even though earlier chunks were already fully written.  Here
the buffer holds spilled chunks `[1]` and `[2]` plus active chunk `[9]`;
the sink accepts the first chunk and then fails with code 7: chunk
`⟨[1], 4⟩` was fully written (the sink holds byte 1) before the error,
yet the release log is empty. -/
theorem claim_C6_counterexample :
    (Buffer.writeTo defaultConfig ⟨⟨[9], 4⟩, 4, [⟨[1], 4⟩, ⟨[2], 4⟩]⟩ PoolState.empty
        ⟨[.ok, .fail 0 7], []⟩).err = some 7
    ∧ (Buffer.writeTo defaultConfig ⟨⟨[9], 4⟩, 4, [⟨[1], 4⟩, ⟨[2], 4⟩]⟩ PoolState.empty
        ⟨[.ok, .fail 0 7], []⟩).sink.written = [1]
    ∧ ¬ (Chunk.mk [1] 4 ∈ (Buffer.writeTo defaultConfig ⟨⟨[9], 4⟩, 4, [⟨[1], 4⟩, ⟨[2], 4⟩]⟩
        PoolState.empty ⟨[.ok, .fail 0 7], []⟩).pool.calls) := by
  decide

/-- C6 amended: `Buffer.WriteTo` writes the chunks to the sink in order
(the sink receives exactly a prefix of the buffer content of length
`n`); on success it returns the full byte count, releases every chunk
(the spilled chunks and the `toPool` slice of the active chunk) and
resets the buffer; on a write error it stops at that error, and either
the error hit the spilled-chunk loop — then *nothing* is released and
the buffer is left unchanged — or it hit the final active-chunk write,
after which all chunks are still released and the buffer reset.
`Buffer.DumpTo` instead always releases all chunks and resets, error or
not, and also hands the sink an exact prefix of the content. -/
theorem claim_C6_amended (cfg : PoolConfig) (b : Buffer) (ps : PoolState) (w : Sink) :
    (Buffer.writeTo cfg b ps w).sink.written
        = w.written ++ (Buffer.content b).take (Buffer.writeTo cfg b ps w).n
    ∧ ((Buffer.writeTo cfg b ps w).err = none →
        (Buffer.writeTo cfg b ps w).n = (Buffer.content b).length
        ∧ (Buffer.writeTo cfg b ps w).pool.calls
            = ps.calls ++ b.bufs ++ [Chunk.mk [] b.toPoolCap]
        ∧ (Buffer.writeTo cfg b ps w).buf = Buffer.empty)
    ∧ (∀ code, (Buffer.writeTo cfg b ps w).err = some code →
        ((Buffer.writeTo cfg b ps w).buf = b ∧ (Buffer.writeTo cfg b ps w).pool = ps)
        ∨ ((Buffer.writeTo cfg b ps w).buf = Buffer.empty
           ∧ (Buffer.writeTo cfg b ps w).pool.calls
               = ps.calls ++ b.bufs ++ [Chunk.mk [] b.toPoolCap]))
    ∧ (Buffer.dumpTo cfg b ps w).pool.calls = ps.calls ++ b.bufs ++ [Chunk.mk [] b.toPoolCap]
    ∧ (Buffer.dumpTo cfg b ps w).buf = Buffer.empty
    ∧ (Buffer.dumpTo cfg b ps w).sink.written
        = w.written ++ (Buffer.content b).take (Buffer.dumpTo cfg b ps w).n := by
  obtain ⟨hw1, hw2, hw3, hw4⟩ := writeList_spec b.bufs w 0
  have hcalls : (b.bufs.foldl (putBuf cfg) ps).calls = ps.calls ++ b.bufs :=
    foldl_putBuf_calls cfg b.bufs ps
  have hdcalls :
      (Buffer.dumpTo cfg b ps w).pool.calls = ps.calls ++ b.bufs ++ [Chunk.mk [] b.toPoolCap] := by
    show (putBuf cfg (b.bufs.foldl (putBuf cfg) ps) (Chunk.mk [] b.toPoolCap)).calls = _
    rw [putBuf_calls, hcalls, List.append_assoc]
  have hdwritten :
      (Buffer.dumpTo cfg b ps w).sink.written
        = w.written ++ (Buffer.content b).take (Buffer.dumpTo cfg b ps w).n := by
    obtain ⟨hd1, hd2, hd3, hd4⟩ :=
      writeList_spec (b.bufs ++ (if 0 < b.buf.data.length then [b.buf] else [])) w 0
    show (writeList w 0 (b.bufs ++ (if 0 < b.buf.data.length then [b.buf] else []))).2.2.written
        = w.written ++ (Buffer.content b).take
            (writeList w 0 (b.bufs ++ (if 0 < b.buf.data.length then [b.buf] else []))).1
    rw [hd3, Nat.sub_zero]
    have hflat :
        (((b.bufs ++ (if 0 < b.buf.data.length then [b.buf] else [])).map Chunk.data).flatten)
          = Buffer.content b := by
      unfold Buffer.content
      by_cases hp : 0 < b.buf.data.length
      · rw [if_pos hp]
        simp
      · rw [if_neg hp]
        have : b.buf.data = [] := List.eq_nil_of_length_eq_zero (by omega)
        simp [this]
    rw [hflat]
  by_cases hS : (writeList w 0 b.bufs).2.1.isSome = true
  · have hRW : Buffer.writeTo cfg b ps w
        = ⟨(writeList w 0 b.bufs).1, (writeList w 0 b.bufs).2.1, b, ps,
           (writeList w 0 b.bufs).2.2⟩ := by
      unfold Buffer.writeTo
      rw [if_pos hS]
    rw [hRW]
    refine ⟨?_, ?_, ?_, hdcalls, rfl, hdwritten⟩
    · show (writeList w 0 b.bufs).2.2.written
          = w.written ++ (Buffer.content b).take (writeList w 0 b.bufs).1
      rw [hw3, Nat.sub_zero]
      unfold Buffer.content
      rw [List.take_append_of_le_length (by omega)]
    · intro hnone
      have hE : (writeList w 0 b.bufs).2.1 = none := hnone
      rw [hE] at hS
      exact absurd hS (by simp)
    · intro code hcode
      exact Or.inl ⟨rfl, rfl⟩
  · have hE : (writeList w 0 b.bufs).2.1 = none := by
      rcases h2 : (writeList w 0 b.bufs).2.1 with _ | cc
      · rfl
      · exact absurd (by rw [h2]; rfl) hS
    have hRW : Buffer.writeTo cfg b ps w
        = ⟨(writeList w 0 b.bufs).1 + (sinkWrite (writeList w 0 b.bufs).2.2 b.buf.data).1,
           (sinkWrite (writeList w 0 b.bufs).2.2 b.buf.data).2.1,
           Buffer.empty,
           putBuf cfg (b.bufs.foldl (putBuf cfg) ps) (Chunk.mk [] b.toPoolCap),
           (sinkWrite (writeList w 0 b.bufs).2.2 b.buf.data).2.2⟩ := by
      unfold Buffer.writeTo
      rw [if_neg hS]
    rw [hRW]
    obtain ⟨hs1, hs2, hs3⟩ := sinkWrite_spec (writeList w 0 b.bufs).2.2 b.buf.data
    refine ⟨?_, ?_, ?_, hdcalls, rfl, hdwritten⟩
    · show (sinkWrite (writeList w 0 b.bufs).2.2 b.buf.data).2.2.written
          = w.written ++ (Buffer.content b).take
              ((writeList w 0 b.bufs).1 + (sinkWrite (writeList w 0 b.bufs).2.2 b.buf.data).1)
      rw [hs2, hw3, Nat.sub_zero]
      unfold Buffer.content
      have hn1 : (writeList w 0 b.bufs).1 = ((b.bufs.map Chunk.data).flatten).length := by
        have := hw4 hE
        omega
      rw [hn1, List.take_length, List.take_append, List.append_assoc]
    · intro hnone
      have hxfull : (sinkWrite (writeList w 0 b.bufs).2.2 b.buf.data).1 = b.buf.data.length :=
        hs3 hnone
      refine ⟨?_, ?_, rfl⟩
      · show (writeList w 0 b.bufs).1 + (sinkWrite (writeList w 0 b.bufs).2.2 b.buf.data).1
            = (Buffer.content b).length
        unfold Buffer.content
        rw [List.length_append]
        have := hw4 hE
        omega
      · show (putBuf cfg (b.bufs.foldl (putBuf cfg) ps) (Chunk.mk [] b.toPoolCap)).calls = _
        rw [putBuf_calls, hcalls, List.append_assoc]
    · intro code hcode
      refine Or.inr ⟨rfl, ?_⟩
      show (putBuf cfg (b.bufs.foldl (putBuf cfg) ps) (Chunk.mk [] b.toPoolCap)).calls = _
      rw [putBuf_calls, hcalls, List.append_assoc]

theorem lenCore_snd (rec : Recyclable) (c : Cursor) :
    (lenCore rec c).2 = {c with size := (lenCore rec c).1} := by
  unfold lenCore
  by_cases h1 : 0 < c.size
  · rw [if_pos h1]
  · rw [if_neg h1]
    by_cases h2 : c.hasBufs
    · rw [if_pos h2]
    · rw [if_neg h2]
      have h0 : c.size = 0 := by omega
      show c = {c with size := 0}
      rw [← h0]

theorem chunksLen_zero (l : List Chunk) :
    chunksLen l 0 = ((l.map Chunk.data).flatten).length := by
  rw [chunksLen_eq]
  omega

theorem bytes_live (rec : Recyclable) (c : Cursor) (h : c.hasBufs = true) :
    (rrcBytes rec (some c)).out = some (recContent rec) := by
  show (if (lenCore rec c).1 = 0 then (⟨some [], some (lenCore rec c).2⟩ : BytesResult)
      else if c.hasBufs then ⟨some (recContent rec), some (lenCore rec c).2⟩
      else ⟨none, some (lenCore rec c).2⟩).out = some (recContent rec)
  by_cases hn : (lenCore rec c).1 = 0
  · rw [if_pos hn]
    have hcon : recContent rec = [] := by
      unfold lenCore at hn
      by_cases h1 : 0 < c.size
      · rw [if_pos h1] at hn
        omega
      · rw [if_neg h1, if_pos h] at hn
        have : ((rec.data.map Chunk.data).flatten).length = 0 := by
          rw [← chunksLen_zero]
          exact hn
        unfold recContent
        exact List.eq_nil_of_length_eq_zero this
    rw [hcon]
  · rw [if_neg hn, if_pos h]

theorem recContent_bump (rec : Recyclable) (k : Int) :
    recContent ⟨rec.data, k⟩ = recContent rec := rfl

/-- C9 as stated is false: `Bytes` does not return the *remaining*
content.  A cursor over the 6-byte chunk `[1,2,3,4,5,6]` that has
already consumed 3 bytes (offset 3, consumed count 3) still gets the
whole 6 bytes from `Bytes`, not the 3 remaining ones. -/
theorem claim_C9_counterexample :
    (rrcBytes ⟨[⟨[1, 2, 3, 4, 5, 6], 6⟩], 1⟩ (some ⟨true, 3, 0, 3, 6, false, false⟩)).out
      ≠ some (List.drop 3 (recContent ⟨[⟨[1, 2, 3, 4, 5, 6], 6⟩], 1⟩)) := by
  decide

/-- C9 amended: for a live cursor (non-nil `bufs` pointer), `Bytes`
materializes the *entire* content of the shared set as one contiguous
value — from position 0, ignoring how much was consumed — and leaves the
cursor's chunk index, offset and consumed count unchanged (only the
cached length may be filled in). -/
theorem claim_C9_amended (rec : Recyclable) (c : Cursor) (h : c.hasBufs = true) :
    (rrcBytes rec (some c)).out = some (recContent rec)
    ∧ (rrcBytes rec (some c)).cursor = some {c with size := (rrcLen rec (some c)).1} := by
  refine ⟨bytes_live rec c h, ?_⟩
  have hL : (rrcLen rec (some c)).1 = (lenCore rec c).1 := rfl
  rw [hL, ← lenCore_snd]
  show (if (lenCore rec c).1 = 0 then (⟨some [], some (lenCore rec c).2⟩ : BytesResult)
      else if c.hasBufs then ⟨some (recContent rec), some (lenCore rec c).2⟩
      else ⟨none, some (lenCore rec c).2⟩).cursor = some (lenCore rec c).2
  by_cases hn : (lenCore rec c).1 = 0
  · rw [if_pos hn]
  · rw [if_neg hn, if_pos h]

/-- Witness for C9 amended at a cursor that has consumed 3 of 6 bytes. -/
theorem claim_C9_amended_witness :
    (Cursor.mk true 3 0 3 6 false false).hasBufs = true
    ∧ ((rrcBytes ⟨[⟨[1, 2, 3, 4, 5, 6], 6⟩], 1⟩ (some ⟨true, 3, 0, 3, 6, false, false⟩)).out
          = some (recContent ⟨[⟨[1, 2, 3, 4, 5, 6], 6⟩], 1⟩)
       ∧ (rrcBytes ⟨[⟨[1, 2, 3, 4, 5, 6], 6⟩], 1⟩ (some ⟨true, 3, 0, 3, 6, false, false⟩)).cursor
          = some {Cursor.mk true 3 0 3 6 false false with
              size := (rrcLen ⟨[⟨[1, 2, 3, 4, 5, 6], 6⟩], 1⟩
                (some ⟨true, 3, 0, 3, 6, false, false⟩)).1}) :=
  ⟨rfl, claim_C9_amended ⟨[⟨[1, 2, 3, 4, 5, 6], 6⟩], 1⟩ ⟨true, 3, 0, 3, 6, false, false⟩ rfl⟩

/-- C7: `Clone` on a live cursor increments the shared set's reference
count by exactly one and returns a fresh cursor at position 0 over the
same chunk data, with `closed` and `recycled` flags false regardless of
the source cursor's state; the clone's `Bytes` output equals the whole
shared content, which is exactly the source cursor's `Bytes` output from
position 0 (after `Reset`), however much the source has already read. -/
theorem claim_C7 (rec : Recyclable) (c : Cursor) (h : c.hasBufs = true) :
    (rrcClone rec (some c)).2.isRecycle = rec.isRecycle + 1
    ∧ (rrcClone rec (some c)).2.data = rec.data
    ∧ (rrcClone rec (some c)).1 = some freshCursor
    ∧ (rrcBytes (rrcClone rec (some c)).2 (rrcClone rec (some c)).1).out
        = some (recContent rec)
    ∧ (rrcBytes (rrcClone rec (some c)).2 (rrcReset (some c))).out
        = some (recContent rec) := by
  have h1 : rrcClone rec (some c)
      = (some ⟨c.hasBufs, 0, 0, 0, 0, false, false⟩,
         if c.hasBufs then Recyclable.mk rec.data (rec.isRecycle + 1) else rec) := rfl
  rw [h1, if_pos h]
  refine ⟨rfl, rfl, ?_, ?_, ?_⟩
  · rw [h]
    rfl
  · rw [show (Cursor.mk c.hasBufs 0 0 0 0 false false) = freshCursor from by rw [h]; rfl]
    rw [bytes_live (Recyclable.mk rec.data (rec.isRecycle + 1)) freshCursor rfl]
    rw [recContent_bump]
  · show (rrcBytes (Recyclable.mk rec.data (rec.isRecycle + 1))
        (some ⟨c.hasBufs, 0, 0, 0, c.size, c.isClose, c.isRecycle⟩)).out = some (recContent rec)
    rw [bytes_live (Recyclable.mk rec.data (rec.isRecycle + 1))
      ⟨c.hasBufs, 0, 0, 0, c.size, c.isClose, c.isRecycle⟩ h]
    rw [recContent_bump]

/-- Witness for C7: a closed, partially-read source cursor over the set
`[[5,6]]` with reference count 1. -/
theorem claim_C7_witness :
    (Cursor.mk true 1 0 1 2 true false).hasBufs = true
    ∧ ((rrcClone ⟨[⟨[5, 6], 2⟩], 1⟩ (some ⟨true, 1, 0, 1, 2, true, false⟩)).2.isRecycle
          = (Recyclable.mk [⟨[5, 6], 2⟩] 1).isRecycle + 1
       ∧ (rrcClone ⟨[⟨[5, 6], 2⟩], 1⟩ (some ⟨true, 1, 0, 1, 2, true, false⟩)).2.data
          = (Recyclable.mk [⟨[5, 6], 2⟩] 1).data
       ∧ (rrcClone ⟨[⟨[5, 6], 2⟩], 1⟩ (some ⟨true, 1, 0, 1, 2, true, false⟩)).1 = some freshCursor
       ∧ (rrcBytes (rrcClone ⟨[⟨[5, 6], 2⟩], 1⟩ (some ⟨true, 1, 0, 1, 2, true, false⟩)).2
            (rrcClone ⟨[⟨[5, 6], 2⟩], 1⟩ (some ⟨true, 1, 0, 1, 2, true, false⟩)).1).out
          = some (recContent ⟨[⟨[5, 6], 2⟩], 1⟩)
       ∧ (rrcBytes (rrcClone ⟨[⟨[5, 6], 2⟩], 1⟩ (some ⟨true, 1, 0, 1, 2, true, false⟩)).2
            (rrcReset (some ⟨true, 1, 0, 1, 2, true, false⟩))).out
          = some (recContent ⟨[⟨[5, 6], 2⟩], 1⟩)) :=
  ⟨rfl, claim_C7 ⟨[⟨[5, 6], 2⟩], 1⟩ ⟨true, 1, 0, 1, 2, true, false⟩ rfl⟩

theorem rrcRead_early_closed (rec : Recyclable) (c : Cursor) (plen : Nat)
    (hcl : c.isClose = true) (hlt : c.offsetLen < (lenCore rec c).1) :
    rrcRead rec (some c) plen
      = ⟨0, some .closed, some {c with size := (lenCore rec c).1}⟩ := by
  simp only [rrcRead]
  rw [lenCore_snd]
  rw [if_neg (show ¬((lenCore rec c).1
      ≤ ({c with size := (lenCore rec c).1} : Cursor).offsetLen) from Nat.not_le.mpr hlt)]
  rw [if_pos (show ({c with size := (lenCore rec c).1} : Cursor).isClose = true from hcl)]

theorem rrcRead_early_eof (rec : Recyclable) (c : Cursor) (plen : Nat)
    (hge : (lenCore rec c).1 ≤ c.offsetLen) :
    rrcRead rec (some c) plen
      = ⟨0, some .eof, some {c with size := (lenCore rec c).1}⟩ := by
  simp only [rrcRead]
  rw [lenCore_snd]
  rw [if_pos (show (lenCore rec c).1
      ≤ ({c with size := (lenCore rec c).1} : Cursor).offsetLen from hge)]

theorem rrcWriteTo_early_closed (rec : Recyclable) (c : Cursor) (w : Sink)
    (hcl : c.isClose = true) (hlt : c.offsetLen < (lenCore rec c).1) :
    rrcWriteTo rec (some c) w
      = ⟨0, some .closed, some {c with size := (lenCore rec c).1}, w⟩ := by
  simp only [rrcWriteTo]
  rw [lenCore_snd]
  rw [if_neg (show ¬((lenCore rec c).1
      ≤ ({c with size := (lenCore rec c).1} : Cursor).offsetLen) from Nat.not_le.mpr hlt)]
  rw [if_pos (show ({c with size := (lenCore rec c).1} : Cursor).isClose = true from hcl)]

theorem rrcWriteTo_early_done (rec : Recyclable) (c : Cursor) (w : Sink)
    (hge : (lenCore rec c).1 ≤ c.offsetLen) :
    rrcWriteTo rec (some c) w
      = ⟨0, none, some {c with size := (lenCore rec c).1}, w⟩ := by
  simp only [rrcWriteTo]
  rw [lenCore_snd]
  rw [if_pos (show (lenCore rec c).1
      ≤ ({c with size := (lenCore rec c).1} : Cursor).offsetLen from hge)]

/-- C3 as stated is false: the exhausted-cursor check precedes the
closed check.  A *closed* cursor over the 2-byte set `[[7,8]]` that has
already consumed both bytes gets `io.EOF` (not the closed error) from
`Read`, and `(0, no error)` (not the closed error) from `WriteTo`. -/
theorem claim_C3_counterexample :
    (rrcRead ⟨[⟨[7, 8], 2⟩], 1⟩ (some ⟨true, 0, 1, 2, 2, true, false⟩) 1).err ≠ some RErr.closed
    ∧ (rrcRead ⟨[⟨[7, 8], 2⟩], 1⟩ (some ⟨true, 0, 1, 2, 2, true, false⟩) 1).err = some RErr.eof
    ∧ (rrcWriteTo ⟨[⟨[7, 8], 2⟩], 1⟩ (some ⟨true, 0, 1, 2, 2, true, false⟩) ⟨[], []⟩).err
        = none := by
  decide

/-- C3 amended: after `Close`, `Read` and `WriteTo` return the distinct
closed-reader error exactly while the cursor has not yet consumed all
bytes; once the consumed count reaches the total length, `Read` returns
end-of-stream and `WriteTo` returns `(0, no error)` — the exhausted
check precedes the closed check in both. -/
theorem claim_C3_amended (rec : Recyclable) (c : Cursor) (plen : Nat) (w : Sink)
    (hcl : c.isClose = true) :
    (c.offsetLen < (rrcLen rec (some c)).1 →
      rrcRead rec (some c) plen
        = ⟨0, some .closed, some {c with size := (rrcLen rec (some c)).1}⟩
      ∧ rrcWriteTo rec (some c) w
        = ⟨0, some .closed, some {c with size := (rrcLen rec (some c)).1}, w⟩)
    ∧ ((rrcLen rec (some c)).1 ≤ c.offsetLen →
      rrcRead rec (some c) plen
        = ⟨0, some .eof, some {c with size := (rrcLen rec (some c)).1}⟩
      ∧ rrcWriteTo rec (some c) w
        = ⟨0, none, some {c with size := (rrcLen rec (some c)).1}, w⟩) := by
  have hL : (rrcLen rec (some c)).1 = (lenCore rec c).1 := rfl
  rw [hL]
  exact ⟨fun hlt => ⟨rrcRead_early_closed rec c plen hcl hlt,
      rrcWriteTo_early_closed rec c w hcl hlt⟩,
    fun hge => ⟨rrcRead_early_eof rec c plen hge, rrcWriteTo_early_done rec c w hge⟩⟩

/-- Witness for C3 amended: a closed unread cursor (consumed 0 of 2
bytes) gets the closed error; a closed exhausted cursor (consumed 2 of
2) gets end-of-stream / no error. -/
theorem claim_C3_amended_witness :
    (Cursor.mk true 0 0 0 0 true false).isClose = true
    ∧ (Cursor.mk true 0 1 2 2 true false).isClose = true
    ∧ (rrcRead ⟨[⟨[7, 8], 2⟩], 1⟩ (some ⟨true, 0, 0, 0, 0, true, false⟩) 1
        = ⟨0, some .closed, some {Cursor.mk true 0 0 0 0 true false with
            size := (rrcLen ⟨[⟨[7, 8], 2⟩], 1⟩ (some ⟨true, 0, 0, 0, 0, true, false⟩)).1}⟩
      ∧ rrcWriteTo ⟨[⟨[7, 8], 2⟩], 1⟩ (some ⟨true, 0, 0, 0, 0, true, false⟩) ⟨[], []⟩
        = ⟨0, some .closed, some {Cursor.mk true 0 0 0 0 true false with
            size := (rrcLen ⟨[⟨[7, 8], 2⟩], 1⟩ (some ⟨true, 0, 0, 0, 0, true, false⟩)).1},
           ⟨[], []⟩⟩)
    ∧ (rrcRead ⟨[⟨[7, 8], 2⟩], 1⟩ (some ⟨true, 0, 1, 2, 2, true, false⟩) 1
        = ⟨0, some .eof, some {Cursor.mk true 0 1 2 2 true false with
            size := (rrcLen ⟨[⟨[7, 8], 2⟩], 1⟩ (some ⟨true, 0, 1, 2, 2, true, false⟩)).1}⟩
      ∧ rrcWriteTo ⟨[⟨[7, 8], 2⟩], 1⟩ (some ⟨true, 0, 1, 2, 2, true, false⟩) ⟨[], []⟩
        = ⟨0, none, some {Cursor.mk true 0 1 2 2 true false with
            size := (rrcLen ⟨[⟨[7, 8], 2⟩], 1⟩ (some ⟨true, 0, 1, 2, 2, true, false⟩)).1},
           ⟨[], []⟩⟩) :=
  ⟨rfl, rfl,
   (claim_C3_amended ⟨[⟨[7, 8], 2⟩], 1⟩ ⟨true, 0, 0, 0, 0, true, false⟩ 1 ⟨[], []⟩ rfl).1
     (by decide),
   (claim_C3_amended ⟨[⟨[7, 8], 2⟩], 1⟩ ⟨true, 0, 1, 2, 2, true, false⟩ 1 ⟨[], []⟩ rfl).2
     (by decide)⟩

/-- C8: evaluation of `Read` at the failing input — a non-closed cursor
over the 2-byte set `[[7,8]]` whose consumed count (2) already equals
the total length.  A read with a zero-length destination returns
`(0, io.EOF)`, not the `(0, no error)` the claim (and the source's own
unreachable `len(p) == 0` branch) prescribes; a non-empty destination at
the same position also returns `(0, io.EOF)`. -/
theorem claim_C8_eval :
    rrcRead ⟨[⟨[7, 8], 2⟩], 1⟩ (some ⟨true, 0, 1, 2, 2, false, false⟩) 0
      = ⟨0, some .eof, some ⟨true, 0, 1, 2, 2, false, false⟩⟩
    ∧ rrcRead ⟨[⟨[7, 8], 2⟩], 1⟩ (some ⟨true, 0, 1, 2, 2, false, false⟩) 1
      = ⟨0, some .eof, some ⟨true, 0, 1, 2, 2, false, false⟩⟩ := by
  decide

/-- C10 as stated is false: not every public method tolerates a nil
receiver.  `Reset` assigns through the receiver without a nil check, so
a nil receiver panics — the model's `none` result, never a surviving
cursor value. -/
theorem claim_C10_counterexample :
    rrcReset none = none ∧ (rrcReset none).isSome = false := ⟨rfl, rfl⟩

/-- C10 amended: the methods the claim lists do tolerate a nil receiver —
`Read` returns `(0, end-of-stream)`, `Close` and `Recycle` are no-ops
returning success, `Len` returns 0, and `Clone` returns nil — but
`Reset` (which writes fields unconditionally) does not. -/
theorem claim_C10_amended :
    (∀ (rec : Recyclable) (plen : Nat), rrcRead rec none plen = ⟨0, some .eof, none⟩)
    ∧ rrcClose none = none
    ∧ (∀ (cfg : PoolConfig) (rec : Recyclable) (ps : PoolState),
        rrcRecycle cfg rec ps none = (none, rec, ps))
    ∧ (∀ rec : Recyclable, rrcLen rec none = (0, none))
    ∧ (∀ rec : Recyclable, rrcClone rec none = (none, rec)) :=
  ⟨fun _ _ => rfl, rfl, fun _ _ _ => rfl, fun _ => rfl, fun _ => rfl⟩

theorem recycleFresh_step (cfg : PoolConfig) (rec : Recyclable) (ps : PoolState) :
    rrcRecycle cfg rec ps (some freshCursor)
      = (some ⟨false, 0, 0, 0, 0, false, true⟩, recRecycle cfg false rec ps) := rfl

theorem recycleFreshK_succ (cfg : PoolConfig) (k : Nat) (rec : Recyclable) (ps : PoolState) :
    recycleFreshK cfg (k + 1) (rec, ps)
      = recycleFreshK cfg k (recRecycle cfg false rec ps) := rfl

theorem recRecycle_pos (cfg : PoolConfig) (D : List Chunk) (n : Int) (ps : PoolState)
    (hn : n ≠ 1) :
    recRecycle cfg false (Recyclable.mk D n) ps = (⟨D, n - 1⟩, ps) := by
  unfold recRecycle
  rw [if_neg (by simp)]
  rw [if_neg (show ¬((Recyclable.mk D n).isRecycle - 1 = 0) from by
    show ¬(n - 1 = 0)
    omega)]

theorem recRecycle_last (cfg : PoolConfig) (D : List Chunk) (ps : PoolState) :
    recRecycle cfg false (Recyclable.mk D 1) ps = (⟨[], 0⟩, D.foldl (putBuf cfg) ps) := by
  unfold recRecycle
  rw [if_neg (by simp)]
  rw [if_pos (show (Recyclable.mk D 1).isRecycle - 1 = 0 from by
    show (1 : Int) - 1 = 0
    decide)]

theorem recycleFreshK_lt (cfg : PoolConfig) :
    ∀ (k n : Nat) (D : List Chunk) (ps : PoolState), k < n →
      recycleFreshK cfg k (⟨D, (n : Int)⟩, ps) = (⟨D, ((n - k : Nat) : Int)⟩, ps) := by
  intro k
  induction k with
  | zero =>
    intro n D ps h
    simp [recycleFreshK]
  | succ k ih =>
    intro n D ps h
    rw [recycleFreshK_succ, recRecycle_pos cfg D n ps (by omega)]
    rw [show ((n : Int) - 1) = ((n - 1 : Nat) : Int) from by omega]
    rw [ih (n - 1) D ps (by omega)]
    rw [show ((n - 1 - k : Nat) : Int) = ((n - (k + 1) : Nat) : Int) from by omega]

theorem recycleFreshK_all (cfg : PoolConfig) :
    ∀ (n : Nat) (D : List Chunk) (ps : PoolState), 1 ≤ n →
      recycleFreshK cfg n (⟨D, (n : Int)⟩, ps) = (⟨[], 0⟩, D.foldl (putBuf cfg) ps) := by
  intro n
  induction n with
  | zero => intro D ps h; omega
  | succ n ih =>
    intro D ps h
    rw [recycleFreshK_succ]
    by_cases hn : n = 0
    · subst hn
      rw [show (((1 : Nat) : Int)) = (1 : Int) from by omega]
      rw [recRecycle_last cfg D ps]
      simp [recycleFreshK]
    · rw [recRecycle_pos cfg D ((n + 1 : Nat) : Int) ps (by omega)]
      rw [show (((n + 1 : Nat) : Int) - 1) = ((n : Nat) : Int) from by omega]
      exact ih D ps (by omega)

/-- C1: `Recycle` is idempotent per cursor (a second call on an
already-recycled cursor changes nothing, so only the first call
decrements the shared reference count); recycling `k < n` fresh clones
of a shared set whose count is `n` puts nothing into the release log and
leaves the count at `n - k`; recycling all `n` clones appends every
chunk of the set, in order, exactly once to the release log. -/
theorem claim_C1 (cfg : PoolConfig) (D : List Chunk) (n k : Nat) (ps : PoolState)
    (hk : k < n) (hn : 1 ≤ n) :
    (∀ (rec1 : Recyclable) (ps1 : PoolState) (c : Cursor), c.isRecycle = true →
        rrcRecycle cfg rec1 ps1 (some c) = (some c, rec1, ps1))
    ∧ (recycleFreshK cfg k (⟨D, (n : Int)⟩, ps)).2.calls = ps.calls
    ∧ (recycleFreshK cfg k (⟨D, (n : Int)⟩, ps)).1.isRecycle = ((n - k : Nat) : Int)
    ∧ (recycleFreshK cfg n (⟨D, (n : Int)⟩, ps)).2.calls = ps.calls ++ D := by
  refine ⟨?_, ?_, ?_, ?_⟩
  · intro rec1 ps1 c hc
    simp only [rrcRecycle]
    rw [if_pos hc]
  · rw [recycleFreshK_lt cfg k n D ps hk]
  · rw [recycleFreshK_lt cfg k n D ps hk]
  · rw [recycleFreshK_all cfg n D ps hn, foldl_putBuf_calls]

/-- Witness for C1: a shared set of two chunks with reference count 3;
recycling 2 clones releases nothing and leaves count 1, recycling all 3
releases both chunks exactly once; a second `Recycle` on an
already-recycled cursor is a no-op. -/
theorem claim_C1_witness :
    ((2 : Nat) < 3 ∧ (1 : Nat) ≤ 3)
    ∧ rrcRecycle defaultConfig ⟨[], 0⟩ PoolState.empty (some ⟨false, 0, 0, 0, 0, false, true⟩)
        = (some ⟨false, 0, 0, 0, 0, false, true⟩, ⟨[], 0⟩, PoolState.empty)
    ∧ (recycleFreshK defaultConfig 2
        (⟨[⟨[1], 1⟩, ⟨[2, 3], 2⟩], ((3 : Nat) : Int)⟩, PoolState.empty)).2.calls
        = PoolState.empty.calls
    ∧ (recycleFreshK defaultConfig 2
        (⟨[⟨[1], 1⟩, ⟨[2, 3], 2⟩], ((3 : Nat) : Int)⟩, PoolState.empty)).1.isRecycle
        = ((3 - 2 : Nat) : Int)
    ∧ (recycleFreshK defaultConfig 3
        (⟨[⟨[1], 1⟩, ⟨[2, 3], 2⟩], ((3 : Nat) : Int)⟩, PoolState.empty)).2.calls
        = PoolState.empty.calls ++ [⟨[1], 1⟩, ⟨[2, 3], 2⟩] :=
  ⟨⟨by decide, by decide⟩,
   (claim_C1 defaultConfig [⟨[1], 1⟩, ⟨[2, 3], 2⟩] 3 2 PoolState.empty (by decide) (by decide)).1
     ⟨[], 0⟩ PoolState.empty ⟨false, 0, 0, 0, 0, false, true⟩ rfl,
   (claim_C1 defaultConfig [⟨[1], 1⟩, ⟨[2, 3], 2⟩] 3 2 PoolState.empty (by decide)
     (by decide)).2.1,
   (claim_C1 defaultConfig [⟨[1], 1⟩, ⟨[2, 3], 2⟩] 3 2 PoolState.empty (by decide)
     (by decide)).2.2.1,
   (claim_C1 defaultConfig [⟨[1], 1⟩, ⟨[2, 3], 2⟩] 3 2 PoolState.empty (by decide)
     (by decide)).2.2.2⟩

end EasyjsonBuffer
